import Mathlib

/-!
Verification development for the Encyclopedia-bot repository (src/app.py).

The source file is a thin Streamlit/langchain wiring layer: the chunking,
vector-index and chain algorithms live in third-party libraries that are not
part of the repository, so those components are modelled from the
specification (each such definition says so in its doc comment), while the
functions that do appear in src/app.py (`conversation_chat`,
`initialize_session_state`, the submit handler inside `display_chat_history`)
are embedded directly, with the library chain abstracted as an injected
fallible function.

Strings are modelled as `List Char`; machine reals of the embedding vectors
are modelled as `Int` coordinates, with negative squared Euclidean distance as
the similarity metric (spec section 4.2 allows this choice).
-/

namespace EncycBot

/-- A source document: provenance id plus extracted raw text (spec section 3). -/
structure Document where
  source_id : String
  raw_text : List Char
deriving DecidableEq

/-- A retrieval chunk: a bounded contiguous span of one document's text
(spec section 3). -/
structure Chunk where
  chunk_id : Nat
  source_id : String
  text : List Char
  start_offset : Nat
  end_offset : Nat
deriving DecidableEq

/-- Error taxonomy of spec section 7. -/
inductive RagError where
  | configError
  | embeddingError
  | retrievalError
  | generationError
deriving DecidableEq

/-- Modelled from the spec: the sliding-window loop of the Chunker
(spec section 4.1); `create_text_chunks` in src/app.py line 18 delegates the
actual splitting to the RecursiveCharacterTextSplitter library class, which is
not part of the repository.  A window of width `w` slides over the text and
advances by `s` characters per step until the remaining text is shorter than
the window; the final chunk takes the nonempty remainder and is never padded.
The first explicit argument is fuel bounding the recursion; it is instantiated
with the text length, which suffices whenever `0 < s`.  Each produced pair is
(start offset, chunk text). -/
def slidingWindowsGo (w s : Nat) : Nat → Nat → List Char → List (Nat × List Char)
  | _, _, [] => []
  | 0, _, _ :: _ => []
  | fuel + 1, p, a :: l =>
    if (a :: l).length < w then [(p, a :: l)]
    else (p, (a :: l).take w) :: slidingWindowsGo w s fuel (p + s) ((a :: l).drop s)

/-- Offset-and-text windows of one text, with the fuel instantiated. -/
def slidingWindowsAt (w s p : Nat) (t : List Char) : List (Nat × List Char) :=
  slidingWindowsGo w s t.length p t

/-- Texts of the chunks the Chunker produces from one document's raw text
under configuration (max_chunk_size `w`, overlap_size `ov`). -/
def chunkDocTexts (w ov : Nat) (t : List Char) : List (List Char) :=
  (slidingWindowsAt w (w - ov) 0 t).map Prod.snd

/-- Assign consecutive chunk ids, starting at `i`, to the windows of one
document. -/
def numberChunks (sid : String) : Nat → List (Nat × List Char) → List Chunk
  | _, [] => []
  | i, (p, txt) :: rest =>
    { chunk_id := i, source_id := sid, text := txt,
      start_offset := p, end_offset := p + txt.length } :: numberChunks sid (i + 1) rest

/-- Chunk every document, numbering chunks consecutively across documents so
that chunk ids are unique, stable and in insertion order for one build. -/
def chunkAll (w ov : Nat) : Nat → List Document → List Chunk
  | _, [] => []
  | i, d :: ds =>
    let cs := numberChunks d.source_id i (slidingWindowsAt w (w - ov) 0 d.raw_text)
    cs ++ chunkAll w ov (i + cs.length) ds

/-- Modelled from the spec: the Chunker contract of spec section 4.1.
Constraint `max_chunk_size > overlap_size ≥ 0` (the `≥ 0` half is inherent in
`Nat`); the Chunker fails with `ConfigError` otherwise, at build time. -/
def chunk (documents : List Document) (max_chunk_size overlap_size : Nat) :
    Except RagError (List Chunk) :=
  if overlap_size < max_chunk_size then
    Except.ok (chunkAll max_chunk_size overlap_size 0 documents)
  else
    Except.error RagError.configError

/-- Embedding of `create_text_chunks` (src/app.py lines 16-19): the source
fixes chunk_size 500 and chunk_overlap 50. -/
def create_text_chunks (documents : List Document) : Except RagError (List Chunk) :=
  chunk documents 500 50

/-- Concatenation of a list of chunk texts, each with its first `ov`
characters (the part overlapping its predecessor) dropped. -/
def reassembleRest (ov : Nat) : List (List Char) → List Char
  | [] => []
  | c :: cs => c.drop ov ++ reassembleRest ov cs

/-- Concatenation of the non-overlapping portions of a chunk-text list: the
first chunk whole, every later chunk minus its first `ov` characters. -/
def reassemble (ov : Nat) : List (List Char) → List Char
  | [] => []
  | c :: cs => c ++ reassembleRest ov cs

/-- An index entry: a chunk together with its embedding vector
(spec section 3). -/
structure IndexEntry where
  chunk : Chunk
  vec : List Int
deriving DecidableEq

/-- Modelled from the spec: the VectorIndex of spec section 4.2; the source
(src/app.py lines 21-24) delegates to the FAISS library, which is not part of
the repository. -/
structure VectorIndex where
  entries : List IndexEntry
deriving DecidableEq

/-- Similarity metric: negative squared Euclidean distance between the query
vector and a stored vector (one of the two metrics spec section 4.2 allows;
it is used consistently for every index instance in this development). -/
def simScore (q v : List Int) : Int :=
  -(List.zipWith (fun a b => (a - b) * (a - b)) q v).sum

/-- Modelled from the spec: build embeds every chunk with the provider and
stores the (chunk, vector) pairs in insertion order (spec section 4.2). -/
def VectorIndex.build (chunks : List Chunk) (embed : List Char → List Int) :
    VectorIndex :=
  ⟨chunks.map fun c => ⟨c, embed c.text⟩⟩

/-- Brute-force scoring, in the spec's words (section 4.2): the similarity of
the query vector to every stored vector, in storage order. -/
def bruteForceScores (idx : VectorIndex) (embed : List Char → List Int)
    (text : List Char) : List (Chunk × Int) :=
  idx.entries.map fun e => (e.chunk, simScore (embed text) e.vec)

/-- Retrieval order on scored chunks: higher similarity first; on equal
similarity, the lower chunk id (first-inserted) first. -/
def rank (a b : Chunk × Int) : Prop :=
  b.2 < a.2 ∨ (a.2 = b.2 ∧ a.1.chunk_id ≤ b.1.chunk_id)

instance : DecidableRel rank := fun a b => by
  unfold rank; exact inferInstance

instance : IsTotal (Chunk × Int) rank := by
  constructor
  intro a b
  unfold rank
  omega

instance : IsTrans (Chunk × Int) rank := by
  constructor
  intro a b c hab hbc
  unfold rank at hab hbc ⊢
  omega

/-- Modelled from the spec: query embeds the text, scores every stored vector,
sorts descending by similarity with the deterministic tie-break, and returns
the first `k` results (spec section 4.2). -/
def VectorIndex.query (idx : VectorIndex) (embed : List Char → List Int)
    (text : List Char) (k : Nat) : List (Chunk × Int) :=
  ((bruteForceScores idx embed text).insertionSort rank).take k

/-- One conversation turn (spec section 3). -/
structure ConversationTurn where
  question : List Char
  answer : List Char
  sequence_number : Nat
deriving DecidableEq

/-- Modelled from the spec: the ConversationMemory of spec section 4.3; the
source (src/app.py line 29) delegates turn bookkeeping to the langchain
ConversationBufferMemory class, which is not part of the repository. -/
structure ConversationMemory where
  turns : List ConversationTurn
deriving DecidableEq

/-- Append assigns the next sequence number and appends one turn
(spec section 4.3). -/
def ConversationMemory.append (m : ConversationMemory) (q a : List Char) :
    ConversationMemory :=
  ⟨m.turns ++ [⟨q, a, m.turns.length⟩]⟩

/-- History view: the most recent `max_turns` turns in chronological order;
`none` means unbounded, returning the full history (spec section 4.3). -/
def ConversationMemory.history (m : ConversationMemory) (max_turns : Option Nat) :
    List ConversationTurn :=
  match max_turns with
  | none => m.turns
  | some n => m.turns.drop (m.turns.length - n)

/-- Configuration surface of the retrieval chain (spec section 6), with the
capability interfaces injected as functions. -/
structure ChainCfg where
  embed : List Char → List Int
  generate : List Char → Except RagError (List Char)
  sysInstruction : List Char
  top_k : Nat
  max_history_turns : Nat

/-- Prompt assembly in the fixed order of spec section 4.4 step 2: system
instruction, retrieved chunk texts most-similar first, bounded conversation
history in chronological order, then the question. -/
def assemblePrompt (sys : List Char) (retrieved : List (Chunk × Int))
    (hist : List ConversationTurn) (q : List Char) : List Char :=
  sys ++ (retrieved.map fun r => r.1.text).flatten
      ++ (hist.map fun u => u.question ++ u.answer).flatten ++ q

/-- Modelled from the spec: one turn of the RetrievalChain (spec section 4.4);
the source (src/app.py lines 26-30) delegates orchestration to the langchain
ConversationalRetrievalChain class, which is not part of the repository.
Retrieve, assemble the prompt, generate; on success append (question, answer)
to the memory and return both, on failure surface the error with no append. -/
def answerTurn (cfg : ChainCfg) (idx : VectorIndex) (m : ConversationMemory)
    (q : List Char) : Except RagError (List Char × ConversationMemory) :=
  match cfg.generate (assemblePrompt cfg.sysInstruction
      (idx.query cfg.embed q cfg.top_k)
      (m.history (some cfg.max_history_turns)) q) with
  | Except.error e => Except.error e
  | Except.ok ans => Except.ok (ans, m.append q ans)

/-- Run one session's questions in order; `none` as soon as a turn fails. -/
def runTurns (cfg : ChainCfg) (idx : VectorIndex) :
    List (List Char) → ConversationMemory → Option ConversationMemory
  | [], m => some m
  | q :: qs, m =>
    match answerTurn cfg idx m q with
    | Except.error _ => none
    | Except.ok (_, m2) => runTurns cfg idx qs m2

/-- Embedding of `conversation_chat` (src/app.py lines 32-36).  The langchain
chain object is abstracted as an injected fallible function of the query and
the current history.  The source mutates `history` in place after the chain
call returns; here the updated history is the second component.  When the
chain raises, the exception propagates before the append runs, so the history
comes back unchanged. -/
def conversation_chat
    (chain : List Char → List (List Char × List Char) → Except RagError (List Char))
    (query : List Char) (history : List (List Char × List Char)) :
    Except RagError (List Char) × List (List Char × List Char) :=
  match chain query history with
  | Except.error e => (Except.error e, history)
  | Except.ok ans => (Except.ok ans, history ++ [(query, ans)])

/-- Streamlit session keys before initialization: a key may be absent. -/
structure RawSession where
  history : Option (List (List Char × List Char))
  generated : Option (List (List Char))
  past : Option (List (List Char))

/-- Concrete session keys after initialization. -/
structure SessionState where
  history : List (List Char × List Char)
  generated : List (List Char)
  past : List (List Char)
deriving DecidableEq

/-- Greeting answer seeded into `generated` (src/app.py line 43, with the
literal's bytes reproduced as they appear in the file). -/
def greetingAnswer : List Char :=
  "Hey! Ask me about Science Technology & Ethics ðŸ¤—".toList

/-- Greeting question seeded into `past` (src/app.py line 45). -/
def greetingQuestion : List Char := "Hey! ðŸ‘‹".toList

/-- Embedding of `initialize_session_state` (src/app.py lines 38-45): each
absent key is seeded (empty history, greeting answer, greeting question);
a key that is already present is kept as is. -/
def initialize_session_state (s : RawSession) : SessionState :=
  { history := s.history.getD []
    generated := s.generated.getD [greetingAnswer]
    past := s.past.getD [greetingQuestion] }

/-- A fresh Streamlit session: no key set yet. -/
def freshSession : RawSession := ⟨none, none, none⟩

/-- Embedding of the submit handler inside `display_chat_history`
(src/app.py lines 52-60): only when the button was pressed and the input is
non-empty does the turn run; then `conversation_chat` is invoked and the input
and output are appended to `past` and `generated`.  When the chain raises, the
exception propagates before those appends, leaving the state unchanged.  The
second component counts how many times the chain was invoked. -/
def display_chat_step
    (chain : List Char → List (List Char × List Char) → Except RagError (List Char))
    (s : SessionState) (user_input : List Char) (submit_button : Bool) :
    SessionState × Nat :=
  if submit_button = true ∧ user_input ≠ [] then
    match conversation_chat chain user_input s.history with
    | (Except.ok out, h2) =>
      ({ history := h2, past := s.past ++ [user_input],
         generated := s.generated ++ [out] }, 1)
    | (Except.error _, _) => (s, 1)
  else (s, 0)

/-- Fold a sequence of form submissions (input, button-pressed) over the
session state, as successive Streamlit reruns do. -/
def runSession
    (chain : List Char → List (List Char × List Char) → Except RagError (List Char))
    (steps : List (List Char × Bool)) (s : SessionState) : SessionState :=
  steps.foldl (fun st p => (display_chat_step chain st p.1 p.2).1) s

/-! Concrete inputs used by the witness theorems. -/

/-- A concrete eight-character document. -/
def docW : Document := ⟨"doc0", "abcdefgh".toList⟩

/-- A concrete deterministic embedding provider: one-dimensional vectors
holding the text length. -/
def embedW : List Char → List Int := fun t => [Int.ofNat t.length]

/-- Three concrete chunks with ids 0, 1, 2 and texts of lengths 1, 2, 3. -/
def chunksW : List Chunk :=
  [⟨0, "s", ['a'], 0, 1⟩, ⟨1, "s", ['b', 'b'], 0, 2⟩, ⟨2, "s", ['c', 'c', 'c'], 0, 3⟩]

/-- A concrete chain that always answers. -/
def chainOkW : List Char → List (List Char × List Char) → Except RagError (List Char) :=
  fun _ _ => Except.ok ['a']

/-- A concrete chain whose generation always fails. -/
def chainFailW : List Char → List (List Char × List Char) → Except RagError (List Char) :=
  fun _ _ => Except.error RagError.generationError

/-- A concrete chain configuration whose generation always succeeds. -/
def cfgW : ChainCfg :=
  { embed := embedW, generate := fun _ => Except.ok ['a'],
    sysInstruction := [], top_k := 2, max_history_turns := 4 }

/-- A concrete index over zero chunks. -/
def idxW : VectorIndex := VectorIndex.build [] embedW

/-- The session state right after initialization of a fresh session. -/
def sessW : SessionState := initialize_session_state freshSession

/-! Helper lemmas about the sliding-window recursion. -/

/-- Characterization of the produced windows: the window at index `i` starts
at offset `p + i * s` and holds the next (at most) `w` characters. -/
theorem slidingWindowsGo_getElem (w s : Nat) (hs : 0 < s) :
    ∀ fuel t p i c, t.length ≤ fuel →
      (slidingWindowsGo w s fuel p t)[i]? = some c →
      c = (p + i * s, (t.drop (i * s)).take w) := by
  intro fuel
  induction fuel with
  | zero =>
    intro t p i c hle hget
    cases t with
    | nil => simp [slidingWindowsGo] at hget
    | cons a l => simp at hle
  | succ fuel ih =>
    intro t p i c hle hget
    cases t with
    | nil => simp [slidingWindowsGo] at hget
    | cons a l =>
      rw [slidingWindowsGo] at hget
      by_cases hlt : (a :: l).length < w
      · rw [if_pos hlt] at hget
        cases i with
        | zero =>
          simp only [List.getElem?_cons_zero] at hget
          obtain rfl := Option.some.inj hget
          simp [List.take_of_length_le (Nat.le_of_lt hlt)]
        | succ i => simp at hget
      · rw [if_neg hlt] at hget
        cases i with
        | zero =>
          rw [List.getElem?_cons_zero] at hget
          obtain rfl := Option.some.inj hget
          simp
        | succ i =>
          rw [List.getElem?_cons_succ] at hget
          have hlen : ((a :: l).drop s).length ≤ fuel := by
            simp only [List.length_drop, List.length_cons] at hle ⊢
            omega
          have hc := ih ((a :: l).drop s) (p + s) i c hlen hget
          rw [hc, List.drop_drop]
          have e1 : s + i * s = (i + 1) * s := by ring
          rw [e1]
          congr 1
          ring

/-- Every window other than the last one has full width `w`. -/
theorem slidingWindowsGo_full (w s : Nat) :
    ∀ fuel t p i c,
      (slidingWindowsGo w s fuel p t)[i]? = some c →
      i + 1 < (slidingWindowsGo w s fuel p t).length →
      c.2.length = w := by
  intro fuel
  induction fuel with
  | zero =>
    intro t p i c hget hlt
    cases t <;> simp [slidingWindowsGo] at hget
  | succ fuel ih =>
    intro t p i c hget hlt
    cases t with
    | nil => simp [slidingWindowsGo] at hget
    | cons a l =>
      rw [slidingWindowsGo] at hget hlt
      by_cases hw : (a :: l).length < w
      · rw [if_pos hw] at hlt
        simp at hlt
      · rw [if_neg hw] at hget hlt
        cases i with
        | zero =>
          rw [List.getElem?_cons_zero] at hget
          obtain rfl := Option.some.inj hget
          simp only [List.length_take, List.length_cons]
          simp only [List.length_cons] at hw
          omega
        | succ i =>
          rw [List.getElem?_cons_succ] at hget
          simp only [List.length_cons] at hlt
          exact ih _ _ i c hget (by omega)

/-- Every window's text has length at most the window width. -/
theorem slidingWindowsGo_text_le (w s : Nat) :
    ∀ fuel p t pr, pr ∈ slidingWindowsGo w s fuel p t → pr.2.length ≤ w := by
  intro fuel
  induction fuel with
  | zero =>
    intro p t pr h
    cases t <;> simp [slidingWindowsGo] at h
  | succ fuel ih =>
    intro p t pr h
    cases t with
    | nil => simp [slidingWindowsGo] at h
    | cons a l =>
      rw [slidingWindowsGo] at h
      by_cases hw : (a :: l).length < w
      · rw [if_pos hw] at h
        simp only [List.mem_singleton] at h
        subst h
        simp only []
        omega
      · rw [if_neg hw] at h
        rw [List.mem_cons] at h
        rcases h with h | h
        · subst h
          simp [List.length_take]
        · exact ih _ _ pr h

/-- Dropping the leading overlap from every window and concatenating yields
the text with its first `ov` characters removed. -/
theorem reassembleRest_go (w s ov : Nat) (hs : 0 < s) (hw : s + ov = w) :
    ∀ fuel t p, t.length ≤ fuel →
      reassembleRest ov ((slidingWindowsGo w s fuel p t).map Prod.snd) = t.drop ov := by
  intro fuel
  induction fuel with
  | zero =>
    intro t p hle
    cases t with
    | nil => simp [slidingWindowsGo, reassembleRest]
    | cons a l => simp at hle
  | succ fuel ih =>
    intro t p hle
    cases t with
    | nil => simp [slidingWindowsGo, reassembleRest]
    | cons a l =>
      rw [slidingWindowsGo]
      by_cases hlt : (a :: l).length < w
      · rw [if_pos hlt]
        simp [reassembleRest]
      · rw [if_neg hlt]
        rw [List.map_cons]
        rw [reassembleRest]
        rw [ih ((a :: l).drop s) (p + s) (by
          simp only [List.length_drop, List.length_cons] at hle ⊢
          omega)]
        rw [List.drop_drop, List.drop_take]
        have e1 : w - ov = s := by omega
        have e2 : s + ov = ov + s := by omega
        rw [e1, e2, ← List.drop_drop, List.take_append_drop]

/-- The text of every chunk `numberChunks` emits is the text of some window. -/
theorem numberChunks_text_mem (sid : String) :
    ∀ i ws c, c ∈ numberChunks sid i ws → ∃ pr ∈ ws, c.text = pr.2 := by
  intro i ws
  induction ws generalizing i with
  | nil =>
    intro c h
    simp [numberChunks] at h
  | cons pr rest ih =>
    intro c h
    obtain ⟨p, txt⟩ := pr
    rw [numberChunks, List.mem_cons] at h
    rcases h with h | h
    · exact ⟨(p, txt), List.mem_cons_self _ _, by rw [h]⟩
    · obtain ⟨pr2, hm, he⟩ := ih (i + 1) c h
      exact ⟨pr2, List.mem_cons_of_mem _ hm, he⟩

/-- Every chunk of `chunkAll` respects the window-width bound on its text. -/
theorem chunkAll_text_le (w ov : Nat) :
    ∀ docs i c, c ∈ chunkAll w ov i docs → c.text.length ≤ w := by
  intro docs
  induction docs with
  | nil =>
    intro i c h
    simp [chunkAll] at h
  | cons d ds ih =>
    intro i c h
    rw [chunkAll] at h
    simp only [List.mem_append] at h
    rcases h with h | h
    · obtain ⟨pr, hm, he⟩ := numberChunks_text_mem d.source_id i _ c h
      rw [he]
      exact slidingWindowsGo_text_le w (w - ov) _ _ _ pr hm
    · exact ih _ c h

/-- Claim C3: for every document list and every valid configuration
(max_chunk_size > overlap_size ≥ 0), every chunk produced by the Chunker has
text length at most max_chunk_size. -/
theorem claim_chunk_size_bound (docs : List Document) (w ov : Nat)
    (cs : List Chunk) (c : Chunk)
    (h : chunk docs w ov = Except.ok cs) (hc : c ∈ cs) :
    c.text.length ≤ w := by
  unfold chunk at h
  by_cases hov : ov < w
  · rw [if_pos hov] at h
    obtain rfl := Except.ok.inj h
    exact chunkAll_text_le w ov docs 0 c hc
  · rw [if_neg hov] at h
    cases h

/-- Witness for C3: a concrete build of the eight-character document with
width 4 and overlap 2; its first produced chunk respects the bound. -/
theorem claim_chunk_size_bound_witness :
    ({ chunk_id := 0, source_id := "doc0", text := "abcd".toList,
       start_offset := 0, end_offset := 4 } : Chunk).text.length ≤ 4 :=
  claim_chunk_size_bound [docW] 4 2 (chunkAll 4 2 0 [docW])
    { chunk_id := 0, source_id := "doc0", text := "abcd".toList,
      start_offset := 0, end_offset := 4 }
    rfl (by decide)

/-- Claim C2: under a valid configuration with positive overlap, any two
consecutive chunks from the same document overlap by exactly overlap_size
characters — the last overlap_size characters of the earlier chunk equal the
first overlap_size characters of the later chunk — whenever the later chunk is
not the final chunk. -/
theorem claim_chunk_overlap (w ov : Nat) (t : List Char) (i : Nat)
    (c d : List Char) (hw : ov < w) (hov : 0 < ov)
    (hc : (chunkDocTexts w ov t)[i]? = some c)
    (hd : (chunkDocTexts w ov t)[i + 1]? = some d)
    (hfin : i + 2 < (chunkDocTexts w ov t).length) :
    c.drop (c.length - ov) = d.take ov := by
  have hs : 0 < w - ov := by omega
  unfold chunkDocTexts slidingWindowsAt at hc hd hfin
  rw [List.getElem?_map] at hc hd
  obtain ⟨pc, hpc, hc2⟩ := Option.map_eq_some'.mp hc
  obtain ⟨pd, hpd, hd2⟩ := Option.map_eq_some'.mp hd
  have hcc := slidingWindowsGo_getElem w (w - ov) hs t.length t 0 i pc le_rfl hpc
  have hdd := slidingWindowsGo_getElem w (w - ov) hs t.length t 0 (i + 1) pd le_rfl hpd
  have hclen : c.length = w := by
    rw [← hc2]
    exact slidingWindowsGo_full w (w - ov) t.length t 0 i pc hpc
      (by rw [List.length_map] at hfin; omega)
  have hc3 : c = (t.drop (i * (w - ov))).take w := by rw [← hc2, hcc]
  have hd3 : d = (t.drop ((i + 1) * (w - ov))).take w := by rw [← hd2, hdd]
  rw [hclen, hc3, hd3, List.drop_take, List.take_take, List.drop_drop]
  have e1 : w - (w - ov) = ov := by omega
  have e2 : min ov w = ov := by omega
  have e3 : i * (w - ov) + (w - ov) = (i + 1) * (w - ov) := by ring
  rw [e1, e2, e3]

/-- Witness for C2: the eight-character document with width 4 and overlap 2;
its first two chunks "abcd" and "cdef" share the two characters "cd". -/
theorem claim_chunk_overlap_witness :
    ("abcd".toList).drop (("abcd".toList).length - 2) = ("cdef".toList).take 2 :=
  claim_chunk_overlap 4 2 "abcdefgh".toList 0 "abcd".toList "cdef".toList
    (by decide) (by decide) (by decide) (by decide) (by decide)

/-- Claim C4: for every document and valid configuration, concatenating the
non-overlapping portions of the chunks (the first chunk whole, each later
chunk minus its first overlap_size characters) reconstructs the document's
raw text exactly. -/
theorem claim_chunk_coverage (w ov : Nat) (t : List Char) (hov : ov < w) :
    reassemble ov (chunkDocTexts w ov t) = t := by
  have hs : 0 < w - ov := by omega
  have hw : (w - ov) + ov = w := by omega
  unfold chunkDocTexts slidingWindowsAt
  cases t with
  | nil => simp [slidingWindowsGo, reassemble]
  | cons a l =>
    simp only [List.length_cons]
    rw [slidingWindowsGo]
    by_cases hlt : (a :: l).length < w
    · rw [if_pos hlt]
      simp [reassemble, reassembleRest]
    · rw [if_neg hlt]
      rw [List.map_cons, reassemble]
      rw [reassembleRest_go w (w - ov) ov hs hw l.length ((a :: l).drop (w - ov))
        (0 + (w - ov)) (by simp only [List.length_drop, List.length_cons]; omega)]
      rw [List.drop_drop, hw, List.take_append_drop]

/-- Witness for C4: reassembling the chunks of the eight-character document
with width 4 and overlap 2 gives back the document text. -/
theorem claim_chunk_coverage_witness :
    reassemble 2 (chunkDocTexts 4 2 "abcdefgh".toList) = "abcdefgh".toList :=
  claim_chunk_coverage 4 2 "abcdefgh".toList (by decide)

/-- Claim C7: the Chunker fails with ConfigError, at chunking (build) time,
for exactly the configurations violating max_chunk_size > overlap_size ≥ 0
(the `≥ 0` half is inherent in `Nat`), and succeeds on every valid
configuration. -/
theorem claim_chunker_config_error (docs : List Document) (w ov : Nat) :
    (w ≤ ov → chunk docs w ov = Except.error RagError.configError) ∧
    (ov < w → chunk docs w ov = Except.ok (chunkAll w ov 0 docs)) := by
  constructor
  · intro h
    unfold chunk
    rw [if_neg (by omega)]
  · intro h
    unfold chunk
    rw [if_pos h]

/-- Witness for C7: overlap 5 with width 2 is rejected with ConfigError, and
overlap 2 with width 5 is accepted. -/
theorem claim_chunker_config_error_witness :
    chunk [] 2 5 = Except.error RagError.configError ∧
    chunk [] 5 2 = Except.ok (chunkAll 5 2 0 []) :=
  ⟨(claim_chunker_config_error [] 2 5).1 (by decide),
   (claim_chunker_config_error [] 5 2).2 (by decide)⟩

/-- Claim C1: for an index built over N chunks whose ids are strictly
increasing in insertion order, query with parameter k returns exactly
min(k, N) scored results, pairwise sorted in descending-similarity order with
ties broken in favor of the lower chunk id, drawn from the brute-force
recomputation of the metric over every stored vector, and every returned
result ranks at least as high as every scored entry that was not returned. -/
theorem claim_query_topk (chunks : List Chunk) (embed : List Char → List Int)
    (text : List Char) (k : Nat)
    (hid : (chunks.map Chunk.chunk_id).Pairwise (· < ·)) :
    ((VectorIndex.build chunks embed).query embed text k).length = min k chunks.length ∧
    ((VectorIndex.build chunks embed).query embed text k).Pairwise
      (fun a b => b.2 < a.2 ∨ (a.2 = b.2 ∧ a.1.chunk_id < b.1.chunk_id)) ∧
    List.Subperm ((VectorIndex.build chunks embed).query embed text k)
      (bruteForceScores (VectorIndex.build chunks embed) embed text) ∧
    (∀ x ∈ (VectorIndex.build chunks embed).query embed text k,
      ∀ y ∈ bruteForceScores (VectorIndex.build chunks embed) embed text,
        y ∉ (VectorIndex.build chunks embed).query embed text k → rank x y) := by
  have hperm := List.perm_insertionSort rank
    (bruteForceScores (VectorIndex.build chunks embed) embed text)
  have hsort := List.sorted_insertionSort rank
    (bruteForceScores (VectorIndex.build chunks embed) embed text)
  have hquery : (VectorIndex.build chunks embed).query embed text k =
      ((bruteForceScores (VectorIndex.build chunks embed) embed text).insertionSort
        rank).take k := rfl
  have hlen : (bruteForceScores (VectorIndex.build chunks embed) embed text).length =
      chunks.length := by
    simp [bruteForceScores, VectorIndex.build]
  refine ⟨?_, ?_, ?_, ?_⟩
  · rw [hquery, List.length_take, hperm.length_eq, hlen]
  · have hids : (bruteForceScores (VectorIndex.build chunks embed) embed text).map
        (fun a => a.1.chunk_id) = chunks.map Chunk.chunk_id := by
      simp [bruteForceScores, VectorIndex.build, List.map_map]
    have hnd : ((bruteForceScores (VectorIndex.build chunks embed) embed text).map
        (fun a => a.1.chunk_id)).Nodup := by
      rw [hids]
      exact hid.imp Nat.ne_of_lt
    have hnd2 : ((VectorIndex.build chunks embed).query embed text k).map
        (fun a => a.1.chunk_id) |>.Nodup := by
      refine List.Nodup.sublist ?_ (((hperm.map _).nodup_iff).2 hnd)
      rw [hquery]
      exact (List.take_sublist _ _).map _
    have hpair1 : ((VectorIndex.build chunks embed).query embed text k).Pairwise rank := by
      rw [hquery]
      exact hsort.sublist (List.take_sublist _ _)
    have hpair2 := List.pairwise_map.1 hnd2
    refine (hpair1.and hpair2).imp ?_
    rintro a b ⟨hr | ⟨he, hle⟩, hne⟩
    · exact Or.inl hr
    · exact Or.inr ⟨he, lt_of_le_of_ne hle hne⟩
  · rw [hquery]
    exact ((List.take_sublist _ _).subperm).trans hperm.subperm
  · intro x hx y hy hyq
    rw [hquery] at hx hyq
    have hy2 : y ∈ (bruteForceScores (VectorIndex.build chunks embed) embed
        text).insertionSort rank := hperm.mem_iff.2 hy
    have hy3 : y ∈ List.take k ((bruteForceScores (VectorIndex.build chunks embed)
        embed text).insertionSort rank) ++ List.drop k ((bruteForceScores
        (VectorIndex.build chunks embed) embed text).insertionSort rank) := by
      rw [List.take_append_drop]
      exact hy2
    rcases List.mem_append.1 hy3 with h | h
    · exact absurd h hyq
    · have hpa : List.Pairwise rank (List.take k ((bruteForceScores
          (VectorIndex.build chunks embed) embed text).insertionSort rank) ++
          List.drop k ((bruteForceScores (VectorIndex.build chunks embed) embed
          text).insertionSort rank)) := by
        rw [List.take_append_drop]
        exact hsort
      exact (List.pairwise_append.1 hpa).2.2 x hx y h

/-- Witness for C1: three chunks with ids 0, 1, 2 whose one-dimensional
vectors give similarities -1, -4, -9 to the empty query; with k = 2 the
returned pair is the two highest-similarity chunks in order, and the first
returned result ranks above the omitted third chunk. -/
theorem claim_query_topk_witness :
    ((VectorIndex.build chunksW embedW).query embedW [] 2).length =
      min 2 chunksW.length ∧
    ((VectorIndex.build chunksW embedW).query embedW [] 2).Pairwise
      (fun a b => b.2 < a.2 ∨ (a.2 = b.2 ∧ a.1.chunk_id < b.1.chunk_id)) ∧
    List.Subperm ((VectorIndex.build chunksW embedW).query embedW [] 2)
      (bruteForceScores (VectorIndex.build chunksW embedW) embedW []) ∧
    rank (⟨0, "s", ['a'], 0, 1⟩, -1) (⟨2, "s", ['c', 'c', 'c'], 0, 3⟩, -9) :=
  ⟨(claim_query_topk chunksW embedW [] 2 (by decide)).1,
   (claim_query_topk chunksW embedW [] 2 (by decide)).2.1,
   (claim_query_topk chunksW embedW [] 2 (by decide)).2.2.1,
   (claim_query_topk chunksW embedW [] 2 (by decide)).2.2.2
     (⟨0, "s", ['a'], 0, 1⟩, -1) (by decide)
     (⟨2, "s", ['c', 'c', 'c'], 0, 3⟩, -9) (by decide) (by decide)⟩

/-- Claim C8: querying a VectorIndex built from zero chunks returns the empty
sequence for every query text and every k, and never an error. -/
theorem claim_empty_index_query (embed : List Char → List Int)
    (text : List Char) (k : Nat) :
    (VectorIndex.build [] embed).query embed text k = [] := by
  simp [VectorIndex.query, bruteForceScores, VectorIndex.build, List.insertionSort]

/-- Claim C5: when the injected chain fails (for example a forced
GenerationError), `conversation_chat` surfaces the error and the history comes
back exactly as it was before the call: zero appends occur on failure. -/
theorem claim_failure_isolates_history
    (chain : List Char → List (List Char × List Char) → Except RagError (List Char))
    (query : List Char) (history : List (List Char × List Char)) (e : RagError)
    (h : chain query history = Except.error e) :
    conversation_chat chain query history = (Except.error e, history) := by
  unfold conversation_chat
  rw [h]

/-- Witness for C5: a chain that always raises GenerationError leaves an
empty history empty. -/
theorem claim_failure_isolates_history_witness :
    conversation_chat chainFailW ['q'] [] = (Except.error RagError.generationError, []) :=
  claim_failure_isolates_history chainFailW ['q'] [] RagError.generationError rfl

/-- A successful turn of the retrieval chain appends exactly the new turn,
carrying the next sequence number, at the end of the memory. -/
theorem answerTurn_ok (cfg : ChainCfg) (idx : VectorIndex) (m : ConversationMemory)
    (q a : List Char) (m2 : ConversationMemory)
    (h : answerTurn cfg idx m q = Except.ok (a, m2)) :
    m2 = ConversationMemory.append m q a := by
  unfold answerTurn at h
  split at h
  · cases h
  · rename_i ans heq
    obtain ⟨h1, h2⟩ := Prod.mk.injEq ans (m.append q ans) a m2 ▸ Except.ok.inj h
    rw [← h2, ← h1]

/-- Specification of a successful run: lengths add up, questions append in
call order, and contiguity of sequence numbers is preserved. -/
theorem runTurns_spec (cfg : ChainCfg) (idx : VectorIndex) :
    ∀ qs m m2, runTurns cfg idx qs m = some m2 →
      m2.turns.length = m.turns.length + qs.length ∧
      m2.turns.map ConversationTurn.question =
        m.turns.map ConversationTurn.question ++ qs ∧
      (m.turns.map ConversationTurn.sequence_number = List.range m.turns.length →
        m2.turns.map ConversationTurn.sequence_number = List.range m2.turns.length) := by
  intro qs
  induction qs with
  | nil =>
    intro m m2 h
    rw [runTurns] at h
    obtain rfl := Option.some.inj h
    exact ⟨rfl, by simp, fun hm => hm⟩
  | cons q qs ih =>
    intro m m2 h
    rw [runTurns] at h
    split at h
    · cases h
    · rename_i a m1 heq
      obtain rfl := answerTurn_ok cfg idx m q a m1 heq
      obtain ⟨ih1, ih2, ih3⟩ := ih (m.append q a) m2 h
      refine ⟨?_, ?_, ?_⟩
      · simp only [ConversationMemory.append, List.length_append,
          List.length_singleton, List.length_cons, List.length_nil] at ih1 ⊢
        omega
      · rw [ih2]
        simp [ConversationMemory.append]
      · intro hm
        refine ih3 ?_
        simp only [ConversationMemory.append, List.map_append, List.length_append,
          List.length_singleton, List.map_cons, List.map_nil]
        rw [hm, ← List.range_succ]

/-- Claim C6: a successful turn only appends — the new memory is the old one
plus one turn whose sequence number is the old length — and after n successful
calls starting from an empty ConversationMemory the unbounded history has
length exactly n, holds the questions in call order, and its sequence numbers
are 0, 1, ..., n-1: strictly increasing and contiguous from 0. -/
theorem claim_memory_append_only (cfg : ChainCfg) (idx : VectorIndex)
    (m : ConversationMemory) (q a : List Char) (m2 : ConversationMemory)
    (qs : List (List Char)) (mem : ConversationMemory)
    (hstep : answerTurn cfg idx m q = Except.ok (a, m2))
    (hrun : runTurns cfg idx qs ⟨[]⟩ = some mem) :
    m2.turns = m.turns ++ [⟨q, a, m.turns.length⟩] ∧
    mem.turns.length = qs.length ∧
    mem.turns.map ConversationTurn.question = qs ∧
    mem.turns.map ConversationTurn.sequence_number = List.range qs.length := by
  obtain rfl := answerTurn_ok cfg idx m q a m2 hstep
  obtain ⟨h2, h3, h4⟩ := runTurns_spec cfg idx qs ⟨[]⟩ mem hrun
  simp only [List.length_nil, List.map_nil, List.nil_append, Nat.zero_add] at h2 h3 h4
  exact ⟨rfl, h2, h3, by rw [h4 (by simp [List.range_zero]), h2]⟩

/-- Witness for C6: two successful turns on the always-answering chain over
the empty index, starting from the empty memory. -/
theorem claim_memory_append_only_witness :
    (⟨[⟨['x'], ['a'], 0⟩]⟩ : ConversationMemory).turns =
      (⟨[]⟩ : ConversationMemory).turns ++ [⟨['x'], ['a'], 0⟩] ∧
    (⟨[⟨['x'], ['a'], 0⟩, ⟨['y'], ['a'], 1⟩]⟩ : ConversationMemory).turns.length =
      [['x'], ['y']].length ∧
    (⟨[⟨['x'], ['a'], 0⟩, ⟨['y'], ['a'], 1⟩]⟩ : ConversationMemory).turns.map
      ConversationTurn.question = [['x'], ['y']] ∧
    (⟨[⟨['x'], ['a'], 0⟩, ⟨['y'], ['a'], 1⟩]⟩ : ConversationMemory).turns.map
      ConversationTurn.sequence_number = List.range [['x'], ['y']].length :=
  claim_memory_append_only cfgW idxW ⟨[]⟩ ['x'] ['a'] ⟨[⟨['x'], ['a'], 0⟩]⟩
    [['x'], ['y']] ⟨[⟨['x'], ['a'], 0⟩, ⟨['y'], ['a'], 1⟩]⟩ rfl rfl

/-- One form submission preserves the transcript invariant: `past` and
`generated` have equal lengths and both still begin with the greeting. -/
theorem display_chat_step_invariant
    (chain : List Char → List (List Char × List Char) → Except RagError (List Char))
    (s : SessionState) (input : List Char) (b : Bool)
    (h1 : s.past.length = s.generated.length)
    (h2 : s.past.head? = some greetingQuestion)
    (h3 : s.generated.head? = some greetingAnswer) :
    (display_chat_step chain s input b).1.past.length =
      (display_chat_step chain s input b).1.generated.length ∧
    (display_chat_step chain s input b).1.past.head? = some greetingQuestion ∧
    (display_chat_step chain s input b).1.generated.head? = some greetingAnswer := by
  unfold display_chat_step
  split
  · rcases hc : conversation_chat chain input s.history with ⟨res, hist⟩
    cases res with
    | error e => exact ⟨h1, h2, h3⟩
    | ok out =>
      refine ⟨by simp [h1], ?_, ?_⟩
      · show (s.past ++ [input]).head? = some greetingQuestion
        cases hp : s.past with
        | nil => rw [hp] at h2; cases h2
        | cons x xs =>
          rw [hp] at h2
          simpa using h2
      · show (s.generated ++ [out]).head? = some greetingAnswer
        cases hg : s.generated with
        | nil => rw [hg] at h3; cases h3
        | cons x xs =>
          rw [hg] at h3
          simpa using h3
  · exact ⟨h1, h2, h3⟩

/-- The transcript invariant is preserved across any sequence of form
submissions. -/
theorem runSession_invariant
    (chain : List Char → List (List Char × List Char) → Except RagError (List Char)) :
    ∀ steps s, s.past.length = s.generated.length →
      s.past.head? = some greetingQuestion →
      s.generated.head? = some greetingAnswer →
      (runSession chain steps s).past.length =
        (runSession chain steps s).generated.length ∧
      (runSession chain steps s).past.head? = some greetingQuestion ∧
      (runSession chain steps s).generated.head? = some greetingAnswer := by
  intro steps
  induction steps with
  | nil =>
    intro s h1 h2 h3
    exact ⟨h1, h2, h3⟩
  | cons st rest ih =>
    intro s h1 h2 h3
    obtain ⟨g1, g2, g3⟩ := display_chat_step_invariant chain s st.1 st.2 h1 h2 h3
    exact ih (display_chat_step chain s st.1 st.2).1 g1 g2 g3

/-- Claim C9: initialization seeds `generated` with the greeting answer and
`past` with the greeting question; a submitted question whose turn succeeds
appends exactly one element to each; hence after initialization and any
sequence of submissions `past` and `generated` always have equal length and
the displayed transcript always begins with the greeting pair. -/
theorem claim_session_transcript
    (chain : List Char → List (List Char × List Char) → Except RagError (List Char))
    (steps : List (List Char × Bool)) (s : SessionState) (input out : List Char)
    (hist2 : List (List Char × List Char))
    (hok : conversation_chat chain input s.history = (Except.ok out, hist2))
    (hin : input ≠ []) :
    (initialize_session_state freshSession).past = [greetingQuestion] ∧
    (initialize_session_state freshSession).generated = [greetingAnswer] ∧
    (display_chat_step chain s input true).1.past = s.past ++ [input] ∧
    (display_chat_step chain s input true).1.generated = s.generated ++ [out] ∧
    (runSession chain steps (initialize_session_state freshSession)).past.length =
      (runSession chain steps (initialize_session_state freshSession)).generated.length ∧
    (runSession chain steps (initialize_session_state freshSession)).past.head? =
      some greetingQuestion ∧
    (runSession chain steps (initialize_session_state freshSession)).generated.head? =
      some greetingAnswer := by
  have hstep : display_chat_step chain s input true =
      ({ history := hist2, past := s.past ++ [input],
         generated := s.generated ++ [out] }, 1) := by
    unfold display_chat_step
    rw [if_pos ⟨rfl, hin⟩, hok]
  obtain ⟨g1, g2, g3⟩ := runSession_invariant chain steps
    (initialize_session_state freshSession) rfl rfl rfl
  exact ⟨rfl, rfl, by rw [hstep], by rw [hstep], g1, g2, g3⟩

/-- Witness for C9: one submission of the question "q" to the always-answering
chain, starting from the freshly initialized session. -/
theorem claim_session_transcript_witness :
    (initialize_session_state freshSession).past = [greetingQuestion] ∧
    (initialize_session_state freshSession).generated = [greetingAnswer] ∧
    (display_chat_step chainOkW sessW ['q'] true).1.past = sessW.past ++ [['q']] ∧
    (display_chat_step chainOkW sessW ['q'] true).1.generated =
      sessW.generated ++ [['a']] ∧
    (runSession chainOkW [(['q'], true)]
      (initialize_session_state freshSession)).past.length =
      (runSession chainOkW [(['q'], true)]
        (initialize_session_state freshSession)).generated.length ∧
    (runSession chainOkW [(['q'], true)]
      (initialize_session_state freshSession)).past.head? = some greetingQuestion ∧
    (runSession chainOkW [(['q'], true)]
      (initialize_session_state freshSession)).generated.head? = some greetingAnswer :=
  claim_session_transcript chainOkW [(['q'], true)] sessW ['q'] ['a']
    [(['q'], ['a'])] rfl (by decide)

/-- Claim C10: when the submit button was not pressed or the input is the
empty string, the chain is never invoked (the invocation count is zero) and
the session state is left completely unchanged. -/
theorem claim_no_turn_without_input
    (chain : List Char → List (List Char × List Char) → Except RagError (List Char))
    (s : SessionState) (input : List Char) (submit : Bool)
    (h : submit = false ∨ input = []) :
    display_chat_step chain s input submit = (s, 0) := by
  unfold display_chat_step
  rw [if_neg]
  rintro ⟨hb, hne⟩
  rcases h with h | h
  · rw [h] at hb
    cases hb
  · exact hne h

/-- Witness for C10: an empty input with the button pressed runs no turn and
changes nothing. -/
theorem claim_no_turn_without_input_witness :
    display_chat_step chainOkW sessW [] true = (sessW, 0) :=
  claim_no_turn_without_input chainOkW sessW [] true (Or.inr rfl)

end EncycBot
